import Mathlib

/-!
GoFileSearch: catalog store and search coordinator.

A shallow embedding of `main.go` (the live code, lines 169-403) and the proofs of its
specified properties.

Modelling decisions.

* Go's `int` is modelled by `Int`.  The only arithmetic in the program is `nextID++` and
  `i + 1`, `i % baseLen` on loop counters below 1000; the counter starts at 1001 and moves
  by one per request, so the 64-bit boundary is out of reach and no wrap-around is modelled.
  Strings sent by a client are another matter: `strconv.Atoi` is modelled with its range
  error for the 64-bit `int`.
* `map[int]Product` is modelled by `Finmap`, the finite maps of Mathlib: `lookup`, `insert`
  (add or overwrite) and `erase` are the three map operations of the program, and two maps
  are equal exactly when they have the same entries.
* The mutex `mu` is not modelled: every handler body below is the sequential code that runs
  inside its critical section, as a function from the state before to the state after.
* The bleve index is external.  It is modelled as the finite map from document ids to the
  documents indexed under them, a document being the list of its named fields; the fate of
  each call made to it (success or an error message) is an input of the handler that makes
  the call, and a failed call leaves the index unchanged.  The text matching of a query
  against a field is a parameter `matchText`, and the ranking of the matches is any ordering
  of them.
* `strconv.Itoa`, `strconv.Atoi` and `fmt.Sprintf("%s %d", ..)` are given executable models.
-/

namespace GoFileSearch

/-! ## Data model -/

/-- Record `Product` of main.go, the item kept in the catalog. -/
structure Product where
  ID : Int
  Name : String
  Category : String
deriving DecidableEq, Repr

/-- Type of the global `products`: the finite map `map[int]Product`. -/
abbrev Catalog := Finmap (fun _ : Int => Product)

/-- Value of a field of an indexed document. -/
inductive FieldValue where
  | num (n : Int)
  | text (s : String)
deriving DecidableEq, Repr

/-- Document as the index sees it: its fields, by name. -/
abbrev Document := List (String × FieldValue)

/-- Content of the external index: the document held under each document id. -/
abbrev Index := Finmap (fun _ : String => Document)

/-! ## Decimal conversions (`strconv.Itoa`, `strconv.Atoi`) -/

/-- Character of the decimal digit `d`. -/
def digitChar (d : Nat) : Char := Char.ofNat (48 + d)

/-- Minus sign, code point 45. -/
def minusSign : Char := Char.ofNat 45

/-- Plus sign, code point 43. -/
def plusSign : Char := Char.ofNat 43

/-- Decimal digits of `n`, most significant first, without leading zeros; `fuel` bounds the
number of digits produced and `n + 1` is always enough. -/
def formatDigits : Nat → Nat → List Char
  | 0, _ => []
  | fuel + 1, n =>
    if n < 10 then [digitChar n] else formatDigits fuel (n / 10) ++ [digitChar (n % 10)]

/-- Model of `strconv.Itoa`: the decimal form of an integer, with a leading minus sign for a
negative one. -/
def itoa (n : Int) : String :=
  match n with
  | Int.ofNat m => String.mk (formatDigits (m + 1) m)
  | Int.negSucc m => String.mk (minusSign :: formatDigits (m + 2) (m + 1))

/-- Value of a run of decimal digits read from the left, starting from `acc`; `none` when a
character is not a decimal digit. -/
def parseDigits : List Char → Nat → Option Nat
  | [], acc => some acc
  | c :: cs, acc =>
    if c.isDigit then parseDigits cs (acc * 10 + (c.toNat - 48)) else none

/-- Syntax accepted by `strconv.Atoi` and the value read: an optional sign followed by one or
more decimal digits; `none` for any other string. -/
def parseInt (s : String) : Option Int :=
  match s.data with
  | [] => none
  | c :: cs =>
    if c = minusSign then
      if cs = [] then none else (parseDigits cs 0).map (fun v => -(v : Int))
    else if c = plusSign then
      if cs = [] then none else (parseDigits cs 0).map (fun v => (v : Int))
    else (parseDigits (c :: cs) 0).map (fun v => (v : Int))

/-- Smallest value of the 64-bit `int`. -/
def minInt : Int := -9223372036854775808

/-- Largest value of the 64-bit `int`. -/
def maxInt : Int := 9223372036854775807

/-- Model of `strconv.Atoi`: the value of a well-formed string when it fits the 64-bit `int`;
`none` is the error return, for a malformed string and for a value out of range. -/
def atoi (s : String) : Option Int :=
  match parseInt s with
  | some v => if minInt ≤ v ∧ v ≤ maxInt then some v else none
  | none => none

/-! ## Global state and seeding -/

/-- Globals of main.go (`products`, `nextID`) together with the content of the index that
`main` hands to the three handlers. -/
structure State where
  products : Catalog
  nextID : Int
  index : Index

/-- Template table `baseProducts`. -/
def baseProducts : List Product :=
  [⟨1, "Wireless Mouse", "Electronics"⟩,
   ⟨2, "Running Shoes", "Footwear"⟩,
   ⟨3, "Gaming Keyboard", "Electronics"⟩,
   ⟨4, "Water Bottle", "Home & Kitchen"⟩,
   ⟨5, "Yoga Mat", "Fitness"⟩]

/-- Template used by iteration `i` of the seeding loop: `baseProducts[i%baseLen]`. -/
def baseAt (i : Nat) : Product :=
  baseProducts.get ⟨i % baseProducts.length, Nat.mod_lt i (by decide)⟩

/-- Body of the loop of `generateProducts` at counter `i`. -/
def generateStep (products : Catalog) (i : Nat) : Catalog :=
  let base := baseAt i
  let id : Int := (i : Int) + 1
  products.insert id ⟨id, base.Name ++ " " ++ itoa id, base.Category⟩

/-- Loop of `generateProducts` run for counters `0 .. n-1` on an empty map. -/
def generateLoop (n : Nat) : Catalog :=
  (List.range n).foldl generateStep ∅

/-- Function `generateProducts`: the loop runs for `i = 0 .. 999`. -/
@[irreducible]
def generateProducts : Catalog := generateLoop 1000

/-- Document built by the bulk load for a product: the map literal of `createIndex`, whose
keys `ID`, `Name` and `Category` are the names of the fields. -/
def bulkDocument (p : Product) : Document :=
  [("ID", .num p.ID), ("Name", .text p.Name), ("Category", .text p.Category)]

/-- Document built by `index.Index(id, p)` for the struct `p`: bleve names each field of a
struct by its `json` tag, here `id`, `name` and `category`. -/
def structDocument (p : Product) : Document :=
  [("id", .num p.ID), ("name", .text p.Name), ("category", .text p.Category)]

/-- One turn of the loop `for _, p := range products` of `createIndex`, at the entry of key
`k`: `batch.Index(strconv.Itoa(p.ID), ..)`, which replaces what the batch held under that
id. -/
def batchStep (products : Catalog) (batch : Index) (k : Int) : Index :=
  match products.lookup k with
  | some p => batch.insert (itoa p.ID) (bulkDocument p)
  | none => batch

/-- Documents put in the batch by the loop of `createIndex`.  Go leaves the order of the
iteration open; the entries are taken by increasing key.  The order has no effect as soon
as no two entries carry the same `ID`, which holds of every catalog of the program. -/
def batchDocs (products : Catalog) : Index :=
  (products.keys.sort (· ≤ ·)).foldl (batchStep products) ∅

/-- Function `createIndex`.  The three places where it can return an error are inputs:
`bleve.NewMemOnly` failing, `batch.Index` failing on a document id, `index.Batch` failing.
`none` is the error return, after which `main` exits. -/
def createIndex (newFails : Bool) (docFails : String → Bool) (batchFails : Bool)
    (products : Catalog) : Option Index :=
  if newFails then none
  else if products.any (fun _ p => docFails (itoa p.ID)) then none
  else if batchFails then none
  else some (batchDocs products)

/-- State in which `main` starts serving: seeded catalog, `nextID = 1001`, and the index
built by a `createIndex` that returned no error. -/
def seeded : State :=
  { products := generateProducts, nextID := 1001, index := batchDocs generateProducts }

/-! ## HTTP handlers -/

/-- Body written to the response. -/
inductive Body where
  | empty
  | text (msg : String)
  | product (p : Product)
  | products (ps : List Product)
deriving DecidableEq, Repr

/-- Status code and body of an HTTP response. -/
structure Response where
  status : Nat
  body : Body
deriving DecidableEq, Repr

/-- Calls a handler makes to the index. -/
inductive IndexCall where
  | index (docID : String) (doc : Product)
  | delete (docID : String)
deriving DecidableEq, Repr

/-- Result of running a mutating handler: the response, the state left behind and the
calls made to the index, in order. -/
structure Outcome where
  resp : Response
  state : State
  calls : List IndexCall

/-- Loop of `searchHandler` over `searchResult.Hits`; `results` is the slice built so far. -/
def resolveHits (products : Catalog) : List String → List Product → List Product
  | [], results => results
  | hit :: rest, results =>
    match atoi hit with
    | none => resolveHits products rest results
    | some id =>
      match products.lookup id with
      | some product =>
        let results := results ++ [product]
        if results.length ≥ 50 then results else resolveHits products rest results
      | none => resolveHits products rest results

/-- Function `searchHandler`.  `indexSearch size from` stands for `index.Search` on the match
query built from the request, as a function of the size and offset of the search request;
it returns the ids of the hits in relevance order, or an error message.  The read lock is
taken after the index has answered, so the catalog read is the one of that later moment. -/
def searchHandler (indexSearch : Nat → Nat → Except String (List String))
    (products : Catalog) : Response :=
  match indexSearch 50 0 with
  | .error e => ⟨500, .text e⟩
  | .ok hits => ⟨200, .products (resolveHits products hits [])⟩

/-- Function `addProductHandler`.  `decoded` is the result of decoding the JSON body,
`indexErr` the error returned by `index.Index`, if any. -/
def addProductHandler (decoded : Except String Product) (indexErr : Option String)
    (s : State) : Outcome :=
  match decoded with
  | .error e => ⟨⟨400, .text e⟩, s, []⟩
  | .ok body =>
    let p : Product := { body with ID := s.nextID }
    let nextID := s.nextID + 1
    let products := s.products.insert p.ID p
    match indexErr with
    | some e =>
      ⟨⟨500, .text e⟩,
       { products := products.erase p.ID, nextID := nextID, index := s.index },
       [.index (itoa p.ID) p]⟩
    | none =>
      ⟨⟨201, .product p⟩,
       { products := products, nextID := nextID,
         index := s.index.insert (itoa p.ID) (structDocument p) },
       [.index (itoa p.ID) p]⟩

/-- Function `deleteProductHandler`.  `idStr` is the URL parameter `id`, `indexErr` the
error returned by `index.Delete`, if any. -/
def deleteProductHandler (idStr : String) (indexErr : Option String) (s : State) : Outcome :=
  match atoi idStr with
  | none => ⟨⟨400, .text "Invalid product ID"⟩, s, []⟩
  | some id =>
    if s.products.lookup id = none then ⟨⟨404, .text "Product not found"⟩, s, []⟩
    else
      let products := s.products.erase id
      match indexErr with
      | some e =>
        ⟨⟨500, .text e⟩, { s with products := products }, [.delete (itoa id)]⟩
      | none =>
        ⟨⟨204, .empty⟩,
         { s with products := products, index := s.index.erase (itoa id) },
         [.delete (itoa id)]⟩

/-! ## Sequences of mutating requests -/

/-- Mutating request together with the fate of the index call it may make. -/
inductive Request where
  | add (decoded : Except String Product) (indexErr : Option String)
  | delete (idStr : String) (indexErr : Option String)

/-- Handler run for a request. -/
def handle (s : State) : Request → Outcome
  | .add decoded indexErr => addProductHandler decoded indexErr s
  | .delete idStr indexErr => deleteProductHandler idStr indexErr s

/-- State after serving the requests one after the other. -/
def run (reqs : List Request) (s : State) : State :=
  reqs.foldl (fun st r => (handle st r).state) s

/-- Responses to the requests served one after the other. -/
def responses : List Request → State → List Response
  | [], _ => []
  | r :: rest, s => (handle s r).resp :: responses rest (handle s r).state

/-- Identifier carried by a 201 response. -/
def createdID (r : Response) : Option Int :=
  match r.status, r.body with
  | 201, .product p => some p.ID
  | _, _ => none

/-- Identifiers handed out by the successful creations of a run, in order. -/
def createdIDs (reqs : List Request) (s : State) : List Int :=
  (responses reqs s).filterMap createdID

/-! ## Notions used by the properties -/

/-- Entry that the seeding loop stores under identifier `k`. -/
def seedEntry (k : Int) : Product :=
  ⟨k, (baseAt (k - 1).toNat).Name ++ " " ++ itoa k, (baseAt (k - 1).toNat).Category⟩

/-- Catalog item a hit resolves to: its id parses as an integer that is a key of the
catalog; `none` for a hit that the search skips. -/
def resolveHit (products : Catalog) (hit : String) : Option Product :=
  (atoi hit).bind (fun id => products.lookup id)

/-- Search result as the specification words it: walk the hits in the order of the index,
skip the hits that do not resolve, replace the others by their catalog item, keep at most
the first 50. -/
def searchSpec (products : Catalog) (hits : List String) : List Product :=
  (hits.filterMap (resolveHit products)).take 50

/-- Model of `index.Search` for one query: `ranked` lists, in relevance order, the ids of all
the documents of the index that match the query; a request of a given size and offset
returns that window of the list, without error. -/
def bleveSearch (ranked : List String) (size offset : Nat) : Except String (List String) :=
  .ok ((ranked.drop offset).take size)

/-- Text held by a document under a field name, if it holds a text there. -/
def fieldText (doc : Document) (field : String) : Option String :=
  doc.findSome? (fun entry =>
    if entry.1 = field then
      match entry.2 with
      | .text t => some t
      | .num _ => none
    else none)

/-- Whether a document is matched by the query of `searchHandler`, a match query for the
text `q` on the field `Name`; `matchText q t` is the verdict of the text matching of the
index on a field text `t`. -/
def docMatches (matchText : String → String → Bool) (q : String) (doc : Document) : Bool :=
  match fieldText doc "Name" with
  | some t => matchText q t
  | none => false

/-- Ids of the documents of the index matched by the query. -/
def hitSet (matchText : String → String → Bool) (q : String) (index : Index) :
    Finset String :=
  index.keys.filter (fun d => (index.lookup d).any (docMatches matchText q) = true)

/-- Ranked list of matches that the index can produce for the query: every matched
document, once. -/
def IsRanking (matchText : String → String → Bool) (q : String) (index : Index)
    (ranked : List String) : Prop :=
  ranked.Nodup ∧ ranked.toFinset = hitSet matchText q index

instance (matchText : String → String → Bool) (q : String) (index : Index)
    (ranked : List String) : Decidable (IsRanking matchText q index ranked) :=
  inferInstanceAs (Decidable (_ ∧ _))

/-- Keys of the catalog items whose name the query matches. -/
def matchingItems (matchText : String → String → Bool) (q : String) (products : Catalog) :
    Finset Int :=
  products.keys.filter (fun k => (products.lookup k).any (fun p => matchText q p.Name) = true)

/-- Text matching used in the concrete instances: the field text starts with the query. -/
def startsWith (q t : String) : Bool := q.data.isPrefixOf t.data

/-- Identifiers 1, 6, .., 996 of the seeded items of the template "Wireless Mouse", by
increasing decimal form read as a string (1, 101, 106, 11, 111, ..): first digit, then
the two-digit number, then the three-digit numbers that extend it. -/
def mouseIDs : List Nat :=
  (List.range 9).flatMap (fun a =>
    (if (a + 1) % 5 = 1 then [a + 1] else []) ++
    (List.range 10).flatMap (fun b =>
      (if b % 5 = 1 then [10 * (a + 1) + b] else []) ++
      [100 * (a + 1) + 10 * b + 1, 100 * (a + 1) + 10 * b + 6]))

/-- Ids of the 200 seeded documents of the template "Wireless Mouse", which all score the
same for the query `Wireless Mouse`, by increasing document id. -/
def mouseRanking : List String :=
  mouseIDs.map (fun (n : Nat) => itoa (n : Int))

/-- No Delete of the run was answered 500, that is, no call to `index.Delete` failed. -/
def noDeleteFailure : List Request → State → Bool
  | [], _ => true
  | .add decoded indexErr :: rest, s =>
    noDeleteFailure rest (addProductHandler decoded indexErr s).state
  | .delete idStr indexErr :: rest, s =>
    decide ((deleteProductHandler idStr indexErr s).resp.status ≠ 500) &&
      noDeleteFailure rest (deleteProductHandler idStr indexErr s).state

/-- Invariant of the states the server goes through: the allocator is above every key of
the catalog, and every key of the catalog has its document in the index. -/
structure Inv (s : State) : Prop where
  keys_lt : ∀ k ∈ s.products, k < s.nextID
  indexed : ∀ k ∈ s.products, itoa k ∈ s.index

/-- Second invariant, on the bulk-loaded part: the allocator has left the seeded range, the
catalog holds under a seeded id only the seeded entry, whose bulk document is in the index,
and every document of the index is the bulk document of a seeded entry or the struct
document of a created item. -/
structure SeedInv (s : State) : Prop where
  next_ge : 1001 ≤ s.nextID
  entries : ∀ k p, s.products.lookup k = some p → k ≤ 1000 → 1 ≤ k ∧ p = seedEntry k
  docs : ∀ k ∈ s.products, k ≤ 1000 →
    s.index.lookup (itoa k) = some (bulkDocument (seedEntry k))
  shape : ∀ d doc, s.index.lookup d = some doc →
    (∃ k : Int, 1 ≤ k ∧ k ≤ 1000 ∧ d = itoa k ∧ doc = bulkDocument (seedEntry k)) ∨
    (∃ p : Product, doc = structDocument p)

/-! ## Decimal conversions round-trip -/

theorem digitChar_isDigit (d : Nat) (h : d < 10) : (digitChar d).isDigit = true := by
  interval_cases d <;> decide

theorem digitChar_value (d : Nat) (h : d < 10) : (digitChar d).toNat - 48 = d := by
  interval_cases d <;> decide

theorem digitChar_ne_minus (d : Nat) (h : d < 10) : digitChar d ≠ minusSign := by
  interval_cases d <;> decide

theorem digitChar_ne_plus (d : Nat) (h : d < 10) : digitChar d ≠ plusSign := by
  interval_cases d <;> decide

theorem parseDigits_append (l₁ l₂ : List Char) (acc : Nat) :
    parseDigits (l₁ ++ l₂) acc = (parseDigits l₁ acc).bind (parseDigits l₂) := by
  induction l₁ generalizing acc with
  | nil => simp [parseDigits]
  | cons c cs ih =>
    simp only [List.cons_append, parseDigits]
    split
    · exact ih _
    · rfl

theorem parseDigits_formatDigits (fuel n : Nat) (h : n < fuel) :
    parseDigits (formatDigits fuel n) 0 = some n := by
  induction fuel generalizing n with
  | zero => omega
  | succ f ih =>
    unfold formatDigits
    split
    · rename_i hlt
      simp [parseDigits, digitChar_isDigit n hlt, digitChar_value n hlt]
    · rename_i hge
      have hdiv : n / 10 < f := by omega
      have hmod : n % 10 < 10 := Nat.mod_lt _ (by decide)
      rw [parseDigits_append, ih _ hdiv]
      simp [parseDigits, digitChar_isDigit _ hmod, digitChar_value _ hmod]
      omega

theorem formatDigits_head (fuel n : Nat) (h : n < fuel) :
    ∃ d rest, d < 10 ∧ formatDigits fuel n = digitChar d :: rest := by
  induction fuel generalizing n with
  | zero => omega
  | succ f ih =>
    unfold formatDigits
    split
    · rename_i hlt
      exact ⟨n, [], hlt, rfl⟩
    · have hdiv : n / 10 < f := by omega
      obtain ⟨d, rest, hd, hrest⟩ := ih _ hdiv
      exact ⟨d, rest ++ [digitChar (n % 10)], hd, by simp [hrest]⟩

theorem parseInt_itoa (n : Int) : parseInt (itoa n) = some n := by
  cases n with
  | ofNat m =>
    obtain ⟨d, rest, hd, hrest⟩ := formatDigits_head (m + 1) m (by omega)
    have hp := parseDigits_formatDigits (m + 1) m (by omega)
    simp only [itoa, parseInt]
    rw [hrest] at hp ⊢
    simp [digitChar_ne_minus d hd, digitChar_ne_plus d hd, hp]
  | negSucc m =>
    obtain ⟨d, rest, hd, hrest⟩ := formatDigits_head (m + 2) (m + 1) (by omega)
    have hp := parseDigits_formatDigits (m + 2) (m + 1) (by omega)
    simp only [itoa, parseInt]
    simp [hrest] at hp ⊢
    simp [hp, Int.negSucc_eq]

theorem atoi_itoa (n : Int) (hlo : minInt ≤ n) (hhi : n ≤ maxInt) :
    atoi (itoa n) = some n := by
  simp only [atoi, parseInt_itoa]
  rw [if_pos ⟨hlo, hhi⟩]

theorem atoi_some (s : String) (v : Int) (h : atoi s = some v) : parseInt s = some v := by
  unfold atoi at h
  cases hp : parseInt s with
  | none => simp [hp] at h
  | some w =>
    simp only [hp] at h
    split at h
    · exact h
    · cases h

theorem itoa_injective : Function.Injective itoa := by
  intro a b h
  have := congrArg parseInt h
  simpa [parseInt_itoa] using this

theorem generateLoop_succ (n : Nat) :
    generateLoop (n + 1) = generateStep (generateLoop n) n := by
  simp [generateLoop, List.range_succ, List.foldl_append]

theorem generateLoop_lookup (n : Nat) (k : Int) :
    (generateLoop n).lookup k = if 1 ≤ k ∧ k ≤ n then some (seedEntry k) else none := by
  induction n with
  | zero =>
    simp only [generateLoop, List.range_zero, List.foldl_nil, Finmap.lookup_empty]
    rw [if_neg]
    push_cast
    omega
  | succ n ih =>
    rw [generateLoop_succ, generateStep]
    by_cases hk : k = (n : Int) + 1
    · subst hk
      have : (1 : Int) ≤ (n : Int) + 1 ∧ (n : Int) + 1 ≤ ((n + 1 : Nat) : Int) := by
        constructor <;> push_cast <;> omega
      simp [Finmap.lookup_insert, this, seedEntry]
    · rw [Finmap.lookup_insert_of_ne _ hk, ih]
      have : (1 ≤ k ∧ k ≤ (n : Int)) ↔ (1 ≤ k ∧ k ≤ ((n + 1 : Nat) : Int)) := by
        push_cast; constructor <;> intro h <;> omega
      simp only [this]

theorem baseAt_eq (k : Int) (h : 1 ≤ k) :
    baseProducts[((k - 1) % 5).toNat]? = some (baseAt (k - 1).toNat) := by
  have h5 : baseProducts.length = 5 := rfl
  have e : ((k - 1) % 5).toNat = (k - 1).toNat % baseProducts.length := by
    rw [h5]; omega
  rw [e, baseAt, List.getElem?_eq_getElem (Nat.mod_lt _ (by decide))]
  rfl

/-! ## Bulk load -/

theorem batchFold_lookup_shape (products : Catalog) (l : List Int) (init : Index)
    (d : String) (doc : Document)
    (h : (l.foldl (batchStep products) init).lookup d = some doc) :
    init.lookup d = some doc ∨
      ∃ k p, k ∈ l ∧ products.lookup k = some p ∧ d = itoa p.ID ∧
        doc = bulkDocument p := by
  induction l generalizing init with
  | nil => exact Or.inl h
  | cons x xs ih =>
    rw [List.foldl_cons] at h
    rcases ih _ h with h1 | ⟨k, p, hk, hp, hd, hdoc⟩
    · unfold batchStep at h1
      cases hx : products.lookup x with
      | none =>
        rw [hx] at h1
        exact Or.inl h1
      | some p =>
        rw [hx] at h1
        by_cases hd : d = itoa p.ID
        · subst hd
          rw [Finmap.lookup_insert] at h1
          exact Or.inr ⟨x, p, List.mem_cons_self _ _, hx, rfl, (Option.some.inj h1).symm⟩
        · rw [Finmap.lookup_insert_of_ne _ hd] at h1
          exact Or.inl h1
    · exact Or.inr ⟨k, p, List.mem_cons_of_mem _ hk, hp, hd, hdoc⟩

theorem batchFold_lookup_other (products : Catalog)
    (hID : ∀ k p, products.lookup k = some p → p.ID = k) (l : List Int) (init : Index)
    (k : Int) (hk : k ∉ l) :
    (l.foldl (batchStep products) init).lookup (itoa k) = init.lookup (itoa k) := by
  induction l generalizing init with
  | nil => rfl
  | cons x xs ih =>
    rw [List.foldl_cons, ih _ (fun h => hk (List.mem_cons_of_mem _ h))]
    have hne : k ≠ x := fun h => hk (h ▸ List.mem_cons_self _ _)
    unfold batchStep
    cases hx : products.lookup x with
    | none => rfl
    | some p =>
      have hpid := hID x p hx
      have : itoa k ≠ itoa p.ID := fun h => hne ((itoa_injective h).trans hpid)
      exact Finmap.lookup_insert_of_ne _ this

theorem batchFold_lookup_mem (products : Catalog)
    (hID : ∀ k p, products.lookup k = some p → p.ID = k) (l : List Int) (init : Index)
    (k : Int) (p : Product) (hk : k ∈ l) (hp : products.lookup k = some p) :
    (l.foldl (batchStep products) init).lookup (itoa k) = some (bulkDocument p) := by
  induction l generalizing init with
  | nil => cases hk
  | cons x xs ih =>
    rw [List.foldl_cons]
    by_cases hin : k ∈ xs
    · exact ih _ hin
    · have hx : k = x := by
        rcases List.mem_cons.mp hk with h | h
        · exact h
        · exact absurd h hin
      subst hx
      rw [batchFold_lookup_other products hID xs _ k hin]
      unfold batchStep
      rw [hp, ← hID k p hp]
      exact Finmap.lookup_insert _

/-- The order in which the loop of `createIndex` meets the entries has no effect on the
batch when every entry carries its key as `ID`. -/
theorem batchFold_order_free (products : Catalog)
    (hID : ∀ k p, products.lookup k = some p → p.ID = k) (l₁ l₂ : List Int)
    (h : ∀ k, k ∈ l₁ ↔ k ∈ l₂) :
    l₁.foldl (batchStep products) ∅ = l₂.foldl (batchStep products) ∅ := by
  have key : ∀ l l₀ : List Int, (∀ k, k ∈ l → k ∈ l₀) → ∀ d doc,
      (l.foldl (batchStep products) ∅).lookup d = some doc →
      (l₀.foldl (batchStep products) ∅).lookup d = some doc := by
    intro l l₀ hsub d doc hd
    rcases batchFold_lookup_shape products l ∅ d doc hd with h0 | ⟨k, p, hk, hp, hdk, hdoc⟩
    · rw [Finmap.lookup_empty] at h0
      cases h0
    · rw [hdk, hdoc, hID k p hp]
      exact batchFold_lookup_mem products hID l₀ ∅ k p (hsub k hk) hp
  apply Finmap.ext_lookup
  intro d
  apply Option.ext
  intro doc
  exact ⟨key l₁ l₂ (fun k => (h k).mp) d doc, key l₂ l₁ (fun k => (h k).mpr) d doc⟩

theorem lookup_batchDocs (products : Catalog)
    (hID : ∀ k p, products.lookup k = some p → p.ID = k) (k : Int) (p : Product)
    (hp : products.lookup k = some p) :
    (batchDocs products).lookup (itoa k) = some (bulkDocument p) := by
  have hk : k ∈ products.keys.sort (· ≤ ·) :=
    (Finset.mem_sort _).mpr (Finmap.mem_keys.mpr (Finmap.mem_of_lookup_eq_some hp))
  exact batchFold_lookup_mem products hID _ ∅ k p hk hp

theorem batchDocs_shape (products : Catalog) (d : String) (doc : Document)
    (h : (batchDocs products).lookup d = some doc) :
    ∃ k p, products.lookup k = some p ∧ d = itoa p.ID ∧ doc = bulkDocument p := by
  rcases batchFold_lookup_shape products _ ∅ d doc h with h0 | ⟨k, p, _, hp, hd, hdoc⟩
  · rw [Finmap.lookup_empty] at h0
    cases h0
  · exact ⟨k, p, hp, hd, hdoc⟩

/-! ## Seeded state -/

theorem seeded_products : seeded.products = generateProducts := rfl

theorem seeded_index : seeded.index = batchDocs generateProducts := rfl

theorem seeded_nextID : seeded.nextID = 1001 := rfl

theorem lookup_seeded (k : Int) :
    seeded.products.lookup k = if 1 ≤ k ∧ k ≤ 1000 then some (seedEntry k) else none := by
  have h := generateLoop_lookup 1000 k
  rw [seeded_products, generateProducts, h]
  norm_num

theorem lookup_seeded_some (k : Int) (p : Product) (h : seeded.products.lookup k = some p) :
    (1 ≤ k ∧ k ≤ 1000) ∧ p = seedEntry k := by
  rw [lookup_seeded] at h
  by_cases hk : 1 ≤ k ∧ k ≤ 1000
  · rw [if_pos hk] at h
    exact ⟨hk, (Option.some.inj h).symm⟩
  · rw [if_neg hk] at h
    cases h

theorem mem_seeded (k : Int) : k ∈ seeded.products ↔ 1 ≤ k ∧ k ≤ 1000 := by
  rw [Finmap.mem_iff, lookup_seeded]
  by_cases h : 1 ≤ k ∧ k ≤ 1000
  · simp [h]
  · simp [h]

theorem atoi_one : atoi "1" = some 1 := by decide

theorem one_mem_seeded : (1 : Int) ∈ seeded.products := (mem_seeded 1).mpr (by decide)

theorem seeded_ids (k : Int) (p : Product) (h : seeded.products.lookup k = some p) :
    p.ID = k := by
  rw [(lookup_seeded_some k p h).2]
  rfl

theorem lookup_index_seeded (k : Int) (h1 : 1 ≤ k) (h2 : k ≤ 1000) :
    seeded.index.lookup (itoa k) = some (bulkDocument (seedEntry k)) := by
  rw [seeded_index, ← seeded_products]
  apply lookup_batchDocs seeded.products seeded_ids
  rw [lookup_seeded, if_pos ⟨h1, h2⟩]

theorem index_seeded_shape (d : String) (doc : Document)
    (h : seeded.index.lookup d = some doc) :
    ∃ k : Int, 1 ≤ k ∧ k ≤ 1000 ∧ d = itoa k ∧ doc = bulkDocument (seedEntry k) := by
  rw [seeded_index, ← seeded_products] at h
  obtain ⟨k, p, hp, hd, hdoc⟩ := batchDocs_shape seeded.products d doc h
  obtain ⟨hk, hpe⟩ := lookup_seeded_some k p hp
  refine ⟨k, hk.1, hk.2, ?_, ?_⟩
  · rw [hd, seeded_ids k p hp]
  · rw [hdoc, hpe]

theorem mem_index_seeded (d : String) :
    d ∈ seeded.index ↔ ∃ k : Int, 1 ≤ k ∧ k ≤ 1000 ∧ itoa k = d := by
  constructor
  · intro hd
    obtain ⟨doc, hdoc⟩ := Finmap.mem_iff.mp hd
    obtain ⟨k, h1, h2, hk, _⟩ := index_seeded_shape d doc hdoc
    exact ⟨k, h1, h2, hk.symm⟩
  · rintro ⟨k, h1, h2, hd⟩
    rw [← hd]
    exact Finmap.mem_of_lookup_eq_some (lookup_index_seeded k h1 h2)

theorem inv_seeded : Inv seeded := by
  refine ⟨fun k hk => ?_, fun k hk => ?_⟩
  · have := (mem_seeded k).mp hk
    rw [seeded_nextID]
    omega
  · have := (mem_seeded k).mp hk
    exact (mem_index_seeded _).mpr ⟨k, this.1, this.2, rfl⟩

theorem seedInv_seeded : SeedInv seeded := by
  refine ⟨?_, fun k p hp _ => ?_, fun k hk _ => ?_, fun d doc h => ?_⟩
  · rw [seeded_nextID]
  · have := lookup_seeded_some k p hp
    exact ⟨this.1.1, this.2⟩
  · have := (mem_seeded k).mp hk
    exact lookup_index_seeded k this.1 this.2
  · exact Or.inl (index_seeded_shape d doc h)

/-! ## One handler step -/

theorem erase_insert_fresh (products : Catalog) (k : Int) (p : Product) (h : k ∉ products) :
    (products.insert k p).erase k = products := by
  apply Finmap.ext_lookup
  intro x
  by_cases hx : x = k
  · subst hx
    rw [Finmap.lookup_erase]
    exact (Finmap.lookup_eq_none.mpr h).symm
  · rw [Finmap.lookup_erase_ne hx, Finmap.lookup_insert_of_ne _ hx]

theorem keys_insert (products : Catalog) (k : Int) (p : Product) :
    (products.insert k p).keys = insert k products.keys := by
  ext x
  simp [Finmap.mem_keys, Finmap.mem_insert]

theorem index_keys_insert (index : Index) (d : String) (doc : Document) :
    (index.insert d doc).keys = insert d index.keys := by
  ext x
  simp [Finmap.mem_keys, Finmap.mem_insert]

theorem inv_add (s : State) (decoded : Except String Product) (indexErr : Option String)
    (h : Inv s) : Inv (addProductHandler decoded indexErr s).state := by
  cases decoded with
  | error e => exact h
  | ok body =>
    have hfresh : s.nextID ∉ s.products := fun hm => lt_irrefl _ (h.keys_lt _ hm)
    cases indexErr with
    | some e =>
      simp only [addProductHandler]
      rw [erase_insert_fresh _ _ _ hfresh]
      constructor
      · intro k hk
        have := h.keys_lt k hk
        show k < s.nextID + 1
        omega
      · exact h.indexed
    | none =>
      simp only [addProductHandler]
      constructor
      · intro k hk
        show k < s.nextID + 1
        rcases Finmap.mem_insert.mp hk with hk | hk
        · omega
        · have := h.keys_lt k hk
          omega
      · intro k hk
        show itoa k ∈ s.index.insert (itoa s.nextID) _
        rcases Finmap.mem_insert.mp hk with hk | hk
        · rw [hk]; exact Finmap.mem_insert.mpr (Or.inl rfl)
        · exact Finmap.mem_insert.mpr (Or.inr (h.indexed k hk))

theorem inv_delete (s : State) (idStr : String) (indexErr : Option String)
    (h : Inv s) : Inv (deleteProductHandler idStr indexErr s).state := by
  unfold deleteProductHandler
  cases hid : atoi idStr with
  | none => exact h
  | some id =>
    simp only
    split
    · exact h
    · cases indexErr with
      | some e =>
        constructor
        · intro k hk
          exact h.keys_lt k (Finmap.mem_erase.mp hk).2
        · intro k hk
          exact h.indexed k (Finmap.mem_erase.mp hk).2
      | none =>
        constructor
        · intro k hk
          exact h.keys_lt k (Finmap.mem_erase.mp hk).2
        · intro k hk
          have hk2 := Finmap.mem_erase.mp hk
          show itoa k ∈ s.index.erase (itoa id)
          exact Finmap.mem_erase.mpr ⟨fun e => hk2.1 (itoa_injective e), h.indexed k hk2.2⟩

theorem inv_handle (s : State) (r : Request) (h : Inv s) : Inv (handle s r).state := by
  cases r with
  | add decoded indexErr => exact inv_add s decoded indexErr h
  | delete idStr indexErr => exact inv_delete s idStr indexErr h

theorem run_cons (r : Request) (reqs : List Request) (s : State) :
    run (r :: reqs) s = run reqs (handle s r).state := rfl

theorem run_append (xs ys : List Request) (s : State) :
    run (xs ++ ys) s = run ys (run xs s) := by
  simp [run, List.foldl_append]

theorem inv_run (reqs : List Request) (s : State) (h : Inv s) : Inv (run reqs s) := by
  induction reqs generalizing s with
  | nil => exact h
  | cons r rest ih => exact ih _ (inv_handle s r h)

/-! ## Search resolution -/

theorem resolveHits_eq (products : Catalog) (hits : List String) (acc : List Product)
    (h : acc.length < 50) :
    resolveHits products hits acc =
      acc ++ (hits.filterMap (resolveHit products)).take (50 - acc.length) := by
  induction hits generalizing acc with
  | nil => simp [resolveHits]
  | cons hit rest ih =>
    unfold resolveHits
    cases ha : atoi hit with
    | none =>
      have hr : resolveHit products hit = none := by simp [resolveHit, ha]
      simp only [List.filterMap_cons, hr]
      exact ih acc h
    | some id =>
      dsimp only
      cases hl : products.lookup id with
      | none =>
        have hr : resolveHit products hit = none := by simp [resolveHit, ha, hl]
        simp only [List.filterMap_cons, hr]
        exact ih acc h
      | some p =>
        have hr : resolveHit products hit = some p := by simp [resolveHit, ha, hl]
        simp only [List.filterMap_cons, hr]
        obtain ⟨m, hm⟩ : ∃ m, 50 - acc.length = m + 1 := ⟨49 - acc.length, by omega⟩
        rw [hm, List.take_succ_cons]
        by_cases hfull : (acc ++ [p]).length ≥ 50
        · have hm0 : m = 0 := by simp at hfull; omega
          rw [if_pos hfull, hm0]
          simp
        · have hlt : (acc ++ [p]).length < 50 := by omega
          have hm2 : 50 - (acc ++ [p]).length = m := by simp; omega
          rw [if_neg hfull, ih _ hlt, hm2]
          simp

theorem resolveHits_spec (products : Catalog) (hits : List String) :
    resolveHits products hits [] = searchSpec products hits := by
  rw [resolveHits_eq products hits [] (by simp)]
  simp [searchSpec]

theorem resolveHit_some (products : Catalog) (hit : String) (item : Product)
    (h : resolveHit products hit = some item) :
    ∃ id, atoi hit = some id ∧ products.lookup id = some item := by
  unfold resolveHit at h
  cases ha : atoi hit with
  | none => simp [ha] at h
  | some id => exact ⟨id, rfl, by simpa [ha] using h⟩

/-- Claim C5 (search resolution).  When the index query succeeds with `hits`, the handler
answers 200 with `searchSpec products hits`: the hits walked in the order of the index, those
that do not parse or are not keys of the catalog skipped, the others replaced by their
catalog item, at most the first 50 kept.  Hence every item returned is in the catalog, the
order of the index is preserved, there are at most 50 items, and an empty result is still
a 200. -/
theorem c5_search_resolution (indexSearch : Nat → Nat → Except String (List String))
    (products : Catalog) (hits : List String) (hok : indexSearch 50 0 = .ok hits) :
    searchHandler indexSearch products = ⟨200, .products (searchSpec products hits)⟩ ∧
    (∀ item ∈ searchSpec products hits, ∃ id, products.lookup id = some item) ∧
    (searchSpec products hits).Sublist (hits.filterMap (resolveHit products)) ∧
    (searchSpec products hits).length ≤ 50 := by
  refine ⟨?_, ?_, ?_, ?_⟩
  · simp only [searchHandler, hok, resolveHits_spec]
  · intro item hitem
    have hmem := List.mem_of_mem_take hitem
    obtain ⟨hit, _, hres⟩ := List.mem_filterMap.mp hmem
    obtain ⟨id, _, hl⟩ := resolveHit_some products hit item hres
    exact ⟨id, hl⟩
  · exact List.take_sublist _ _
  · simp [searchSpec, List.length_take]

/-- Witness of `c5_search_resolution`: four hits on the seeded catalog, of which one does
not parse and one is not a key. -/
theorem c5_search_resolution_witness :
    bleveSearch ["1", "x", "2000", "6"] 50 0 = .ok ["1", "x", "2000", "6"] ∧
    (searchHandler (bleveSearch ["1", "x", "2000", "6"]) seeded.products =
      ⟨200, .products (searchSpec seeded.products ["1", "x", "2000", "6"])⟩ ∧
    (∀ item ∈ searchSpec seeded.products ["1", "x", "2000", "6"],
      ∃ id, seeded.products.lookup id = some item) ∧
    (searchSpec seeded.products ["1", "x", "2000", "6"]).Sublist
      (["1", "x", "2000", "6"].filterMap (resolveHit seeded.products)) ∧
    (searchSpec seeded.products ["1", "x", "2000", "6"]).length ≤ 50) :=
  ⟨rfl, c5_search_resolution (bleveSearch ["1", "x", "2000", "6"]) seeded.products
    ["1", "x", "2000", "6"] rfl⟩

/-! ## Create and Delete -/

/-- Claim C1 (create rollback).  In every state reached from the seeded state by Create and
Delete requests, `nextID` is not a key of the catalog; and when the index upsert fails,
`addProductHandler` answers 500 with the error text and leaves a catalog equal to the one
before the call, in which the assigned id is absent. -/
theorem c1_create_rollback (reqs : List Request) (body : Product) (e : String) :
    (run reqs seeded).nextID ∉ (run reqs seeded).products ∧
    (addProductHandler (.ok body) (some e) (run reqs seeded)).resp = ⟨500, .text e⟩ ∧
    (addProductHandler (.ok body) (some e) (run reqs seeded)).state.products =
      (run reqs seeded).products ∧
    (run reqs seeded).nextID ∉
      (addProductHandler (.ok body) (some e) (run reqs seeded)).state.products := by
  have hinv := inv_run reqs seeded inv_seeded
  have hfresh : (run reqs seeded).nextID ∉ (run reqs seeded).products :=
    fun hm => lt_irrefl _ (hinv.keys_lt _ hm)
  have hsame : (addProductHandler (.ok body) (some e) (run reqs seeded)).state.products =
      (run reqs seeded).products := by
    simp only [addProductHandler]
    exact erase_insert_fresh _ _ _ hfresh
  refine ⟨hfresh, rfl, hsame, ?_⟩
  rw [hsame]
  exact hfresh

/-- Claim C2 (create success).  In every state and for every decoded body, whatever id it
carries, when the index upsert succeeds `addProductHandler` answers 201 with the item made
of the old `nextID` and the name and category of the body; afterwards the catalog maps that
id to that item and every other key to what it held before. -/
theorem c2_create_success (s : State) (body : Product) :
    (addProductHandler (.ok body) none s).resp =
      ⟨201, .product ⟨s.nextID, body.Name, body.Category⟩⟩ ∧
    ∀ k : Int, (addProductHandler (.ok body) none s).state.products.lookup k =
      if k = s.nextID then some ⟨s.nextID, body.Name, body.Category⟩
      else s.products.lookup k := by
  refine ⟨rfl, fun k => ?_⟩
  simp only [addProductHandler]
  by_cases hk : k = s.nextID
  · subst hk
    rw [Finmap.lookup_insert, if_pos rfl]
  · rw [Finmap.lookup_insert_of_ne _ hk, if_neg hk]

theorem delete_found (s : State) (idStr : String) (id : Int) (indexErr : Option String)
    (hid : atoi idStr = some id) (hfound : id ∈ s.products) :
    deleteProductHandler idStr indexErr s =
      match indexErr with
      | some e =>
        ⟨⟨500, .text e⟩, { s with products := s.products.erase id }, [.delete (itoa id)]⟩
      | none =>
        ⟨⟨204, .empty⟩,
         { s with products := s.products.erase id, index := s.index.erase (itoa id) },
         [.delete (itoa id)]⟩ := by
  have hl : ¬ s.products.lookup id = none := fun h => (Finmap.lookup_eq_none.mp h) hfound
  unfold deleteProductHandler
  simp only [hid, if_neg hl]

theorem delete_missing (s : State) (idStr : String) (id : Int) (indexErr : Option String)
    (hid : atoi idStr = some id) (hmiss : id ∉ s.products) :
    deleteProductHandler idStr indexErr s = ⟨⟨404, .text "Product not found"⟩, s, []⟩ := by
  have hl : s.products.lookup id = none := Finmap.lookup_eq_none.mpr hmiss
  unfold deleteProductHandler
  simp only [hid, if_pos hl]

theorem delete_found_products (s : State) (idStr : String) (id : Int)
    (indexErr : Option String) (hid : atoi idStr = some id) (hfound : id ∈ s.products) :
    (deleteProductHandler idStr indexErr s).state.products = s.products.erase id := by
  rw [delete_found s idStr id indexErr hid hfound]
  cases indexErr <;> rfl

/-- Claim C3 (delete observed twice).  After a Delete that found the item, answered 204 or
500 according to the fate of its index deletion, a second Delete of the same id, with no
Create in between, answers 404, makes no call to the index and leaves the state as it
was. -/
theorem c3_delete_twice (s : State) (first second : String) (id : Int)
    (err₁ err₂ : Option String) (h₁ : atoi first = some id) (h₂ : atoi second = some id)
    (hfound : id ∈ s.products) :
    ((deleteProductHandler first err₁ s).resp.status = 204 ∨
      (deleteProductHandler first err₁ s).resp.status = 500) ∧
    (deleteProductHandler second err₂ (deleteProductHandler first err₁ s).state).resp =
      ⟨404, .text "Product not found"⟩ ∧
    (deleteProductHandler second err₂ (deleteProductHandler first err₁ s).state).calls = [] ∧
    (deleteProductHandler second err₂ (deleteProductHandler first err₁ s).state).state =
      (deleteProductHandler first err₁ s).state := by
  have hgone : id ∉ (deleteProductHandler first err₁ s).state.products := by
    rw [delete_found_products s first id err₁ h₁ hfound]
    exact Finmap.not_mem_erase_self
  rw [delete_missing _ second id err₂ h₂ hgone]
  refine ⟨?_, rfl, rfl, rfl⟩
  rw [delete_found s first id err₁ h₁ hfound]
  cases err₁
  · exact Or.inl rfl
  · exact Or.inr rfl

/-- Claim C4 (delete with a failing index).  When the id is in the catalog and the index
deletion fails, `deleteProductHandler` answers 500 with the error text and keeps the
removal: the id is absent afterwards, every other key holds what it held before, and
`nextID` is unchanged. -/
theorem c4_delete_index_failure (s : State) (idStr : String) (id : Int) (e : String)
    (hid : atoi idStr = some id) (hfound : id ∈ s.products) :
    (deleteProductHandler idStr (some e) s).resp = ⟨500, .text e⟩ ∧
    id ∉ (deleteProductHandler idStr (some e) s).state.products ∧
    (∀ k : Int, (deleteProductHandler idStr (some e) s).state.products.lookup k =
      if k = id then none else s.products.lookup k) ∧
    (deleteProductHandler idStr (some e) s).state.nextID = s.nextID := by
  rw [delete_found s idStr id (some e) hid hfound]
  refine ⟨rfl, Finmap.not_mem_erase_self, fun k => ?_, rfl⟩
  show (s.products.erase id).lookup k = _
  by_cases hk : k = id
  · subst hk
    rw [Finmap.lookup_erase, if_pos rfl]
  · rw [Finmap.lookup_erase_ne hk, if_neg hk]

/-- Witness of `c3_delete_twice`: item 1 of the seeded catalog deleted twice, the second
time under the spelling `+1`, the first index deletion failing. -/
theorem c3_delete_twice_witness :
    atoi "1" = some 1 ∧ atoi "+1" = some 1 ∧ (1 : Int) ∈ seeded.products ∧
    (((deleteProductHandler "1" (some "index unavailable") seeded).resp.status = 204 ∨
      (deleteProductHandler "1" (some "index unavailable") seeded).resp.status = 500) ∧
    (deleteProductHandler "+1" none
      (deleteProductHandler "1" (some "index unavailable") seeded).state).resp =
      ⟨404, .text "Product not found"⟩ ∧
    (deleteProductHandler "+1" none
      (deleteProductHandler "1" (some "index unavailable") seeded).state).calls = [] ∧
    (deleteProductHandler "+1" none
      (deleteProductHandler "1" (some "index unavailable") seeded).state).state =
      (deleteProductHandler "1" (some "index unavailable") seeded).state) :=
  ⟨atoi_one, by decide, one_mem_seeded,
    c3_delete_twice seeded "1" "+1" 1 (some "index unavailable") none atoi_one (by decide)
      one_mem_seeded⟩

/-- Witness of `c4_delete_index_failure`: item 1 of the seeded catalog, index deletion
failing. -/
theorem c4_delete_index_failure_witness :
    atoi "1" = some 1 ∧ (1 : Int) ∈ seeded.products ∧
    ((deleteProductHandler "1" (some "index unavailable") seeded).resp =
      ⟨500, .text "index unavailable"⟩ ∧
    (1 : Int) ∉ (deleteProductHandler "1" (some "index unavailable") seeded).state.products ∧
    (∀ k : Int,
      (deleteProductHandler "1" (some "index unavailable") seeded).state.products.lookup k =
        if k = 1 then none else seeded.products.lookup k) ∧
    (deleteProductHandler "1" (some "index unavailable") seeded).state.nextID =
      seeded.nextID) :=
  ⟨atoi_one, one_mem_seeded,
    c4_delete_index_failure seeded "1" 1 "index unavailable" atoi_one one_mem_seeded⟩

/-! ## Seeding -/

theorem generateProducts_keys : generateProducts.keys = Finset.Icc (1 : Int) 1000 := by
  ext k
  rw [Finmap.mem_keys, ← seeded_products, mem_seeded, Finset.mem_Icc]

/-- Claim C7 (seed content).  The map returned by `generateProducts` has exactly the keys
1..1000, and under each such id it holds the item with that id, the name of the template
`baseProducts[(id-1) mod 5]` followed by one space and the decimal form of the id, and the
category of that template. -/
theorem c7_seed_content :
    generateProducts.keys = Finset.Icc (1 : Int) 1000 ∧
    ∀ id : Int, 1 ≤ id → id ≤ 1000 →
      ∃ base : Product, baseProducts[((id - 1) % 5).toNat]? = some base ∧
        generateProducts.lookup id =
          some ⟨id, base.Name ++ " " ++ itoa id, base.Category⟩ := by
  refine ⟨generateProducts_keys, fun id h1 h2 => ?_⟩
  refine ⟨baseAt (id - 1).toNat, baseAt_eq id h1, ?_⟩
  rw [← seeded_products, lookup_seeded, if_pos ⟨h1, h2⟩]
  rfl

/-- Witness of `c7_seed_content` at id 6. -/
theorem c7_seed_content_witness :
    (1 : Int) ≤ 6 ∧ (6 : Int) ≤ 1000 ∧
    ∃ base : Product, baseProducts[(((6 : Int) - 1) % 5).toNat]? = some base ∧
      generateProducts.lookup 6 = some ⟨6, base.Name ++ " " ++ itoa 6, base.Category⟩ :=
  ⟨by decide, by decide, c7_seed_content.2 6 (by decide) (by decide)⟩

/-! ## Identifier allocation -/

theorem add_nextID_le (s : State) (decoded : Except String Product)
    (indexErr : Option String) :
    s.nextID ≤ (addProductHandler decoded indexErr s).state.nextID := by
  cases decoded with
  | error e => exact le_refl _
  | ok body =>
    cases indexErr <;>
    · show s.nextID ≤ s.nextID + 1
      omega

theorem delete_nextID (s : State) (idStr : String) (indexErr : Option String) :
    (deleteProductHandler idStr indexErr s).state.nextID = s.nextID := by
  unfold deleteProductHandler
  cases atoi idStr with
  | none => rfl
  | some id =>
    dsimp only
    split
    · rfl
    · cases indexErr <;> rfl

theorem handle_nextID_le (s : State) (r : Request) :
    s.nextID ≤ (handle s r).state.nextID := by
  cases r with
  | add decoded indexErr => exact add_nextID_le s decoded indexErr
  | delete idStr indexErr =>
    show s.nextID ≤ (deleteProductHandler idStr indexErr s).state.nextID
    rw [delete_nextID]

theorem run_nextID_le (reqs : List Request) (s : State) :
    s.nextID ≤ (run reqs s).nextID := by
  induction reqs generalizing s with
  | nil => exact le_refl _
  | cons r rest ih =>
    rw [run_cons]
    exact le_trans (handle_nextID_le s r) (ih _)

theorem delete_not_created (s : State) (idStr : String) (indexErr : Option String) :
    createdID (deleteProductHandler idStr indexErr s).resp = none := by
  unfold deleteProductHandler
  cases atoi idStr with
  | none => rfl
  | some id =>
    dsimp only
    split
    · rfl
    · cases indexErr <;> rfl

theorem createdID_handle (s : State) (r : Request) (id : Int)
    (h : createdID (handle s r).resp = some id) :
    id = s.nextID ∧ (handle s r).state.nextID = s.nextID + 1 := by
  cases r with
  | add decoded indexErr =>
    cases decoded with
    | error e => simp [handle, addProductHandler, createdID] at h
    | ok body =>
      cases indexErr with
      | some e => simp [handle, addProductHandler, createdID] at h
      | none =>
        simp only [handle, addProductHandler, createdID, Option.some.injEq] at h
        exact ⟨h.symm, rfl⟩
  | delete idStr indexErr =>
    simp [handle, delete_not_created] at h

theorem createdIDs_cons (r : Request) (rest : List Request) (s : State) :
    createdIDs (r :: rest) s =
      match createdID (handle s r).resp with
      | some id => id :: createdIDs rest (handle s r).state
      | none => createdIDs rest (handle s r).state := by
  simp only [createdIDs, responses, List.filterMap_cons]
  cases createdID (handle s r).resp <;> rfl

theorem createdIDs_ge (reqs : List Request) (s : State) :
    ∀ id ∈ createdIDs reqs s, s.nextID ≤ id ∧ id < (run reqs s).nextID := by
  induction reqs generalizing s with
  | nil => intro id h; simp [createdIDs, responses] at h
  | cons r rest ih =>
    intro id hid
    rw [createdIDs_cons] at hid
    rw [run_cons]
    have hstep := handle_nextID_le s r
    cases hc : createdID (handle s r).resp with
    | none =>
      rw [hc] at hid
      have := ih _ id hid
      exact ⟨le_trans hstep this.1, this.2⟩
    | some c =>
      rw [hc] at hid
      obtain ⟨hcid, hnext⟩ := createdID_handle s r c hc
      rcases List.mem_cons.mp hid with h | h
      · subst h
        have := run_nextID_le rest (handle s r).state
        constructor
        · omega
        · omega
      · have := ih _ id h
        exact ⟨le_trans hstep this.1, this.2⟩

theorem createdIDs_increasing (reqs : List Request) (s : State) :
    (createdIDs reqs s).Pairwise (· < ·) := by
  induction reqs generalizing s with
  | nil => simp [createdIDs, responses]
  | cons r rest ih =>
    rw [createdIDs_cons]
    cases hc : createdID (handle s r).resp with
    | none => exact ih _
    | some c =>
      obtain ⟨hcid, hnext⟩ := createdID_handle s r c hc
      refine List.Pairwise.cons ?_ (ih _)
      intro id hid
      have := (createdIDs_ge rest _ id hid).1
      omega

/-- Claim C8 (monotonic identifier allocation).  `nextID` starts at 1001, above the seeded
keys 1..1000.  After any requests `pre` from the seeded state: a successful Create moves
`nextID` up by exactly one; no request lowers it; every key of the catalog is below it; the
ids handed out so far are strictly increasing, hence pairwise distinct, and lie between
1001 and `nextID`; and every id handed out by later requests `post` is at or above it, so
no id that was ever in the catalog is handed out again. -/
theorem c8_monotonic_allocation (pre post : List Request) :
    (seeded.nextID = 1001 ∧ ∀ k ∈ seeded.products, 1 ≤ k ∧ k ≤ 1000) ∧
    (∀ body : Product,
      (addProductHandler (.ok body) none (run pre seeded)).resp.status = 201 ∧
      (addProductHandler (.ok body) none (run pre seeded)).state.nextID =
        (run pre seeded).nextID + 1) ∧
    (∀ r : Request, (run pre seeded).nextID ≤ (handle (run pre seeded) r).state.nextID) ∧
    (∀ k ∈ (run pre seeded).products, k < (run pre seeded).nextID) ∧
    (createdIDs pre seeded).Pairwise (· < ·) ∧
    (createdIDs pre seeded).Nodup ∧
    (∀ id ∈ createdIDs pre seeded, 1001 ≤ id ∧ id < (run pre seeded).nextID) ∧
    (∀ id ∈ createdIDs post (run pre seeded), (run pre seeded).nextID ≤ id) := by
  have hinc := createdIDs_increasing pre seeded
  refine ⟨⟨seeded_nextID, fun k hk => (mem_seeded k).mp hk⟩, fun body => ⟨rfl, rfl⟩,
    fun r => handle_nextID_le _ r, (inv_run pre seeded inv_seeded).keys_lt, hinc,
    hinc.imp (fun h => ne_of_lt h), ?_, fun id hid => (createdIDs_ge post _ id hid).1⟩
  intro id hid
  have := createdIDs_ge pre seeded id hid
  rw [seeded_nextID] at this
  exact this

/-! ## Agreement of the catalog and the index -/

theorem agree_seeded : seeded.products.keys.image itoa = seeded.index.keys := by
  ext d
  rw [Finmap.mem_keys, mem_index_seeded, Finset.mem_image]
  constructor
  · rintro ⟨k, hk, hd⟩
    have := (mem_seeded k).mp (Finmap.mem_keys.mp hk)
    exact ⟨k, this.1, this.2, hd⟩
  · rintro ⟨k, h1, h2, hd⟩
    exact ⟨k, Finmap.mem_keys.mpr ((mem_seeded k).mpr ⟨h1, h2⟩), hd⟩

theorem agree_add (s : State) (decoded : Except String Product) (indexErr : Option String)
    (hinv : Inv s) (h : s.products.keys.image itoa = s.index.keys) :
    (addProductHandler decoded indexErr s).state.products.keys.image itoa =
      (addProductHandler decoded indexErr s).state.index.keys := by
  cases decoded with
  | error e => exact h
  | ok body =>
    have hfresh : s.nextID ∉ s.products := fun hm => lt_irrefl _ (hinv.keys_lt _ hm)
    cases indexErr with
    | some e =>
      simp only [addProductHandler]
      rw [erase_insert_fresh _ _ _ hfresh]
      exact h
    | none =>
      simp only [addProductHandler]
      rw [keys_insert, index_keys_insert, Finset.image_insert, h]

theorem agree_delete (s : State) (idStr : String) (indexErr : Option String)
    (h : s.products.keys.image itoa = s.index.keys)
    (hok : (deleteProductHandler idStr indexErr s).resp.status ≠ 500) :
    (deleteProductHandler idStr indexErr s).state.products.keys.image itoa =
      (deleteProductHandler idStr indexErr s).state.index.keys := by
  cases hid : atoi idStr with
  | none =>
    have : deleteProductHandler idStr indexErr s =
        ⟨⟨400, .text "Invalid product ID"⟩, s, []⟩ := by
      unfold deleteProductHandler
      simp only [hid]
    rw [this]
    exact h
  | some id =>
    by_cases hfound : id ∈ s.products
    · rw [delete_found s idStr id indexErr hid hfound] at hok ⊢
      cases indexErr with
      | some e => exact absurd rfl hok
      | none =>
        show (s.products.erase id).keys.image itoa = (s.index.erase (itoa id)).keys
        rw [Finmap.keys_erase, Finmap.keys_erase, Finset.image_erase itoa_injective, h]
    · rw [delete_missing s idStr id indexErr hid hfound]
      exact h

theorem agree_run (reqs : List Request) (s : State) (hinv : Inv s)
    (h : s.products.keys.image itoa = s.index.keys) (hok : noDeleteFailure reqs s = true) :
    (run reqs s).products.keys.image itoa = (run reqs s).index.keys := by
  induction reqs generalizing s with
  | nil => exact h
  | cons r rest ih =>
    rw [run_cons]
    cases r with
    | add decoded indexErr =>
      exact ih _ (inv_add s decoded indexErr hinv) (agree_add s decoded indexErr hinv h) hok
    | delete idStr indexErr =>
      simp only [noDeleteFailure, Bool.and_eq_true, decide_eq_true_eq] at hok
      exact ih _ (inv_delete s idStr indexErr hinv) (agree_delete s idStr indexErr h hok.1)
        hok.2

theorem any_false (products : Catalog) : products.any (fun _ _ => false) = false := by
  induction products using Finmap.induction_on with
  | H a =>
    have key : Finmap.any (fun _ _ => false) (AList.toFinmap a) =
        a.entries.foldl (fun x _ => x || false) false := rfl
    rw [key]
    induction a.entries with
    | nil => rfl
    | cons x xs ih => simp

theorem createIndex_ok (products : Catalog) :
    createIndex false (fun _ => false) false products = some (batchDocs products) := by
  simp [createIndex, any_false]

theorem createIndex_seeded :
    createIndex false (fun _ => false) false seeded.products = some seeded.index := by
  rw [createIndex_ok, seeded_index, seeded_products]

theorem run_delete_one (e : String) :
    run [Request.delete "1" (some e)] seeded =
      { seeded with products := seeded.products.erase 1 } := by
  rw [run_cons]
  simp only [handle]
  rw [delete_found seeded "1" 1 (some e) atoi_one one_mem_seeded]
  rfl

/-- Claim C9 fails as stated.  After the bulk load, a Delete of item 1 whose index deletion
fails leaves the document `1` in the index while 1 is no longer a key of the catalog: the
two sets of ids differ. -/
theorem c9_stale_document :
    itoa 1 ∈ (run [Request.delete "1" (some "index unavailable")] seeded).index ∧
    (1 : Int) ∉ (run [Request.delete "1" (some "index unavailable")] seeded).products ∧
    (run [Request.delete "1" (some "index unavailable")] seeded).products.keys.image itoa ≠
      (run [Request.delete "1" (some "index unavailable")] seeded).index.keys := by
  rw [run_delete_one]
  have hin : itoa 1 ∈ seeded.index := (mem_index_seeded _).mpr ⟨1, by decide, by decide, rfl⟩
  have hout : (1 : Int) ∉ seeded.products.erase 1 := Finmap.not_mem_erase_self
  refine ⟨hin, hout, fun heq => ?_⟩
  have hmem : itoa 1 ∈ (seeded.products.erase 1).keys.image itoa := by
    rw [show (seeded.products.erase 1).keys.image itoa = seeded.index.keys from heq]
    exact Finmap.mem_keys.mpr hin
  obtain ⟨k, hk, hk1⟩ := Finset.mem_image.mp hmem
  rw [itoa_injective hk1] at hk
  exact hout (Finmap.mem_keys.mp hk)

/-- Claim C9, amended.  The bulk load without error gives the index of the seeded state, and
after any Create and Delete requests from it, whatever the fate of their index calls, every
key of the catalog has its document in the index; when moreover no index deletion has
failed, the document ids of the index are exactly the decimal forms of the keys of the
catalog. -/
theorem c9_catalog_index_agreement (reqs : List Request) :
    createIndex false (fun _ => false) false seeded.products = some seeded.index ∧
    (∀ k ∈ (run reqs seeded).products, itoa k ∈ (run reqs seeded).index) ∧
    (noDeleteFailure reqs seeded = true →
      (run reqs seeded).products.keys.image itoa = (run reqs seeded).index.keys) :=
  ⟨createIndex_seeded, (inv_run reqs seeded inv_seeded).indexed,
    agree_run reqs seeded inv_seeded agree_seeded⟩

/-- Witness of `c9_catalog_index_agreement`: a Create followed by a Delete of item 1, both
index calls succeeding, is a run without index deletion failure, and the catalog and the
index agree after it. -/
theorem c9_catalog_index_agreement_witness :
    noDeleteFailure
      [Request.add (.ok ⟨0, "Test Widget", "Misc"⟩) none, Request.delete "1" none]
      seeded = true ∧
    (run [Request.add (.ok ⟨0, "Test Widget", "Misc"⟩) none, Request.delete "1" none]
      seeded).products.keys.image itoa =
    (run [Request.add (.ok ⟨0, "Test Widget", "Misc"⟩) none, Request.delete "1" none]
      seeded).index.keys :=
  have h : noDeleteFailure
      [Request.add (.ok ⟨0, "Test Widget", "Misc"⟩) none, Request.delete "1" none]
      seeded = true := by
    simp only [noDeleteFailure, Bool.and_true, decide_eq_true_eq]
    rw [delete_found _ "1" 1 none atoi_one
      (Finmap.mem_insert.mpr (Or.inr one_mem_seeded))]
    decide
  ⟨h, (c9_catalog_index_agreement _).2.2 h⟩

/-! ## Search cap -/

theorem seedInv_add (s : State) (decoded : Except String Product) (indexErr : Option String)
    (h : SeedInv s) : SeedInv (addProductHandler decoded indexErr s).state := by
  cases decoded with
  | error e => exact h
  | ok body =>
    have hnext := h.next_ge
    cases indexErr with
    | some e =>
      simp only [addProductHandler]
      refine ⟨?_, fun k p hp hk => ?_, fun k hk hk2 => ?_, h.shape⟩
      · show 1001 ≤ s.nextID + 1
        omega
      · have hne : k ≠ s.nextID := by omega
        rw [Finmap.lookup_erase_ne hne, Finmap.lookup_insert_of_ne _ hne] at hp
        exact h.entries k p hp hk
      · have hne : k ≠ s.nextID := by omega
        have hk3 := (Finmap.mem_erase.mp hk).2
        rcases Finmap.mem_insert.mp hk3 with h4 | h4
        · exact absurd h4 hne
        · exact h.docs k h4 hk2
    | none =>
      simp only [addProductHandler]
      refine ⟨?_, fun k p hp hk => ?_, fun k hk hk2 => ?_, fun d doc hd => ?_⟩
      · show 1001 ≤ s.nextID + 1
        omega
      · have hne : k ≠ s.nextID := by omega
        rw [Finmap.lookup_insert_of_ne _ hne] at hp
        exact h.entries k p hp hk
      · have hne : k ≠ s.nextID := by omega
        have hne2 : itoa k ≠ itoa s.nextID := fun e => hne (itoa_injective e)
        rcases Finmap.mem_insert.mp hk with h4 | h4
        · exact absurd h4 hne
        · show (s.index.insert (itoa s.nextID) _).lookup (itoa k) = _
          rw [Finmap.lookup_insert_of_ne _ hne2]
          exact h.docs k h4 hk2
      · by_cases hdn : d = itoa s.nextID
        · subst hdn
          rw [show ∀ x, (s.index.insert (itoa s.nextID) x).lookup (itoa s.nextID) = some x
            from fun x => Finmap.lookup_insert _] at hd
          exact Or.inr ⟨_, (Option.some.inj hd).symm⟩
        · rw [show ∀ x, (s.index.insert (itoa s.nextID) x).lookup d = s.index.lookup d
            from fun x => Finmap.lookup_insert_of_ne _ hdn] at hd
          exact h.shape d doc hd

theorem lookup_erase_some {α : Type} [DecidableEq α] {β : α → Type} (m : Finmap β) (a x : α)
    (b : β x) (h : (m.erase a).lookup x = some b) : m.lookup x = some b := by
  by_cases hx : x = a
  · subst hx
    rw [Finmap.lookup_erase] at h
    cases h
  · rwa [Finmap.lookup_erase_ne hx] at h

theorem seedInv_delete (s : State) (idStr : String) (indexErr : Option String)
    (h : SeedInv s) : SeedInv (deleteProductHandler idStr indexErr s).state := by
  unfold deleteProductHandler
  cases hid : atoi idStr with
  | none => exact h
  | some id =>
    simp only
    split
    · exact h
    · cases indexErr with
      | some e =>
        refine ⟨h.next_ge, fun k p hp hk => ?_, fun k hk hk2 => ?_, h.shape⟩
        · exact h.entries k p (lookup_erase_some _ _ _ _ hp) hk
        · exact h.docs k (Finmap.mem_erase.mp hk).2 hk2
      | none =>
        refine ⟨h.next_ge, fun k p hp hk => ?_, fun k hk hk2 => ?_, fun d doc hd => ?_⟩
        · exact h.entries k p (lookup_erase_some _ _ _ _ hp) hk
        · have hk3 := Finmap.mem_erase.mp hk
          have hne : itoa k ≠ itoa id := fun e => hk3.1 (itoa_injective e)
          show (s.index.erase (itoa id)).lookup (itoa k) = _
          rw [Finmap.lookup_erase_ne hne]
          exact h.docs k hk3.2 hk2
        · exact h.shape d doc (lookup_erase_some _ _ _ _ hd)

theorem seedInv_run (reqs : List Request) (s : State) (h : SeedInv s) :
    SeedInv (run reqs s) := by
  induction reqs generalizing s with
  | nil => exact h
  | cons r rest ih =>
    rw [run_cons]
    cases r with
    | add decoded indexErr => exact ih _ (seedInv_add s decoded indexErr h)
    | delete idStr indexErr => exact ih _ (seedInv_delete s idStr indexErr h)

theorem docMatches_bulk (matchText : String → String → Bool) (q : String) (p : Product) :
    docMatches matchText q (bulkDocument p) = matchText q p.Name := rfl

theorem docMatches_struct (matchText : String → String → Bool) (q : String) (p : Product) :
    docMatches matchText q (structDocument p) = false := rfl

theorem atoi_itoa_seed (k : Int) (h1 : 1 ≤ k) (h2 : k ≤ 1000) : atoi (itoa k) = some k := by
  apply atoi_itoa
  · have : minInt ≤ 1 := by decide
    omega
  · have : (1000 : Int) ≤ maxInt := by decide
    omega

theorem searchHandler_bleve (ranked : List String) (products : Catalog) :
    searchHandler (bleveSearch ranked) products =
      ⟨200, .products (searchSpec products (ranked.take 50))⟩ := by
  simp only [searchHandler, bleveSearch, List.drop_zero, resolveHits_spec]

theorem length_filterMap_of_isSome {α β : Type} (f : α → Option β) (l : List α)
    (h : ∀ x ∈ l, (f x).isSome = true) : (l.filterMap f).length = l.length := by
  induction l with
  | nil => rfl
  | cons x xs ih =>
    have hx := h x (List.mem_cons_self _ _)
    obtain ⟨y, hy⟩ := Option.isSome_iff_exists.mp hx
    rw [List.filterMap_cons, hy]
    simp [ih (fun z hz => h z (List.mem_cons_of_mem _ hz))]

theorem take_filterMap_of_isSome {α β : Type} (f : α → Option β) (l : List α) (n : Nat)
    (h : ∀ x ∈ l, (f x).isSome = true) :
    (l.take n).filterMap f = (l.filterMap f).take n := by
  induction l generalizing n with
  | nil => simp
  | cons x xs ih =>
    cases n with
    | zero => simp
    | succ m =>
      have hx := h x (List.mem_cons_self _ _)
      obtain ⟨y, hy⟩ := Option.isSome_iff_exists.mp hx
      simp only [List.take_succ_cons, List.filterMap_cons, hy]
      rw [ih m (fun z hz => h z (List.mem_cons_of_mem _ hz))]

/-- Seeded items of the catalog matched by the query. -/
theorem mem_matching_seed (matchText : String → String → Bool) (q : String) (s : State)
    (hs : SeedInv s) (k : Int) :
    k ∈ (matchingItems matchText q s.products).filter (fun k => k ≤ 1000) ↔
      k ∈ s.products ∧ k ≤ 1000 ∧ matchText q (seedEntry k).Name = true := by
  rw [Finset.mem_filter, matchingItems, Finset.mem_filter, Finmap.mem_keys]
  constructor
  · rintro ⟨⟨hk, hm⟩, hle⟩
    obtain ⟨p, hp⟩ := Finmap.mem_iff.mp hk
    have hpe := (hs.entries k p hp hle).2
    rw [hp, hpe] at hm
    exact ⟨hk, hle, by simpa using hm⟩
  · rintro ⟨hk, hle, hm⟩
    obtain ⟨p, hp⟩ := Finmap.mem_iff.mp hk
    have hpe := (hs.entries k p hp hle).2
    refine ⟨⟨hk, ?_⟩, hle⟩
    rw [hp, hpe]
    simpa using hm

/-- Hits of the query, when the index holds no stale document: the documents of the seeded
items of the catalog that the query matches. -/
theorem hitSet_eq (matchText : String → String → Bool) (q : String) (s : State)
    (hs : SeedInv s) (hagree : s.products.keys.image itoa = s.index.keys) :
    hitSet matchText q s.index =
      ((matchingItems matchText q s.products).filter (fun k => k ≤ 1000)).image itoa := by
  ext d
  rw [Finset.mem_image, hitSet, Finset.mem_filter]
  constructor
  · rintro ⟨hd, hm⟩
    obtain ⟨doc, hdoc⟩ := Finmap.mem_iff.mp (Finmap.mem_keys.mp hd)
    rw [hdoc] at hm
    rcases hs.shape d doc hdoc with ⟨k, h1, h2, hdk, hbulk⟩ | ⟨p, hstruct⟩
    · rw [← hagree] at hd
      obtain ⟨j, hj, hjd⟩ := Finset.mem_image.mp hd
      have hjk : j = k := itoa_injective (hjd.trans hdk)
      subst hjk
      refine ⟨j, (mem_matching_seed matchText q s hs j).mpr ⟨Finmap.mem_keys.mp hj, h2, ?_⟩,
        hjd⟩
      rw [hbulk] at hm
      simpa [docMatches_bulk] using hm
    · rw [hstruct] at hm
      simp [docMatches_struct] at hm
  · rintro ⟨k, hk, hkd⟩
    obtain ⟨hmem, hle, hm⟩ := (mem_matching_seed matchText q s hs k).mp hk
    have hdoc := hs.docs k hmem hle
    rw [← hkd]
    refine ⟨Finmap.mem_keys.mpr (Finmap.mem_of_lookup_eq_some hdoc), ?_⟩
    rw [hdoc]
    simpa [docMatches_bulk] using hm

/-- Every hit of the query resolves to the seeded item it is the document of. -/
theorem resolveHit_of_hit (matchText : String → String → Bool) (q : String) (s : State)
    (hs : SeedInv s) (hagree : s.products.keys.image itoa = s.index.keys) (d : String)
    (hd : d ∈ hitSet matchText q s.index) :
    ∃ k : Int, d = itoa k ∧ s.products.lookup k = some (seedEntry k) ∧
      resolveHit s.products d = some (seedEntry k) ∧
      matchText q (seedEntry k).Name = true := by
  rw [hitSet_eq matchText q s hs hagree] at hd
  obtain ⟨k, hk, hkd⟩ := Finset.mem_image.mp hd
  obtain ⟨hmem, hle, hm⟩ := (mem_matching_seed matchText q s hs k).mp hk
  obtain ⟨p, hp⟩ := Finmap.mem_iff.mp hmem
  obtain ⟨h1, hpe⟩ := hs.entries k p hp hle
  have hl : s.products.lookup k = some (seedEntry k) := by rw [hp, hpe]
  refine ⟨k, hkd.symm, hl, ?_, hm⟩
  rw [← hkd, resolveHit, atoi_itoa_seed k h1 hle]
  exact hl

/-- Claim C6, amended.  In a state reached from the seeded state by Create and Delete
requests none of whose index deletions failed, a query on the field `Name` that matches
more than 50 of the bulk-loaded items (ids up to 1000) still in the catalog is answered 200
with exactly 50 items: the catalog items of the first 50 hits in the relevance order of the
index, each one an item whose name the query matches. -/
theorem c6_search_cap (reqs : List Request) (matchText : String → String → Bool)
    (q : String) (ranked : List String)
    (hok : noDeleteFailure reqs seeded = true)
    (hr : IsRanking matchText q (run reqs seeded).index ranked)
    (hmany : 50 < ((matchingItems matchText q (run reqs seeded).products).filter
      (fun k => k ≤ 1000)).card) :
    ∃ items : List Product,
      searchHandler (bleveSearch ranked) (run reqs seeded).products =
        ⟨200, .products items⟩ ∧
      items.length = 50 ∧
      (ranked.take 50).map (resolveHit (run reqs seeded).products) = items.map some ∧
      ∀ item ∈ items, matchText q item.Name = true ∧
        (run reqs seeded).products.lookup item.ID = some item := by
  have hs := seedInv_run reqs seeded seedInv_seeded
  have hagree := agree_run reqs seeded inv_seeded agree_seeded hok
  have hhit : ∀ d ∈ ranked, d ∈ hitSet matchText q (run reqs seeded).index := by
    intro d hd
    rw [← hr.2]
    exact List.mem_toFinset.mpr hd
  have hsome : ∀ d ∈ ranked, (resolveHit (run reqs seeded).products d).isSome = true := by
    intro d hd
    obtain ⟨k, _, _, hres, _⟩ := resolveHit_of_hit matchText q _ hs hagree d (hhit d hd)
    rw [hres]
    rfl
  have hlen : 50 < ranked.length := by
    rw [← List.toFinset_card_of_nodup hr.1, hr.2, hitSet_eq matchText q _ hs hagree,
      Finset.card_image_of_injective _ itoa_injective]
    exact hmany
  have hsome50 : ∀ d ∈ ranked.take 50,
      (resolveHit (run reqs seeded).products d).isSome = true :=
    fun d hd => hsome d (List.mem_of_mem_take hd)
  have hspec : searchSpec (run reqs seeded).products (ranked.take 50) =
      (ranked.take 50).filterMap (resolveHit (run reqs seeded).products) := by
    rw [searchSpec, List.take_of_length_le]
    rw [length_filterMap_of_isSome _ _ hsome50, List.length_take]
    omega
  refine ⟨_, searchHandler_bleve ranked _, ?_, ?_, ?_⟩
  · rw [hspec, length_filterMap_of_isSome _ _ hsome50, List.length_take]
    omega
  · rw [hspec]
    generalize ranked.take 50 = hits at hsome50
    induction hits with
    | nil => rfl
    | cons x xs ih =>
      have hx := hsome50 x (List.mem_cons_self _ _)
      obtain ⟨y, hy⟩ := Option.isSome_iff_exists.mp hx
      rw [List.map_cons, List.filterMap_cons, hy, List.map_cons,
        ih (fun z hz => hsome50 z (List.mem_cons_of_mem _ hz))]
  · intro item hitem
    rw [hspec] at hitem
    obtain ⟨d, hd, hres⟩ := List.mem_filterMap.mp hitem
    obtain ⟨k, _, hl, hres2, hm⟩ :=
      resolveHit_of_hit matchText q _ hs hagree d (hhit d (List.mem_of_mem_take hd))
    have hitemk : item = seedEntry k := Option.some.inj (hres.symm.trans hres2)
    rw [hitemk]
    exact ⟨hm, hl⟩

/-! ## The query `Wireless Mouse` on the seeded data -/

theorem baseAt_mod (i : Nat) : baseAt i = baseAt (i % 5) := by
  unfold baseAt
  congr 1
  apply Fin.ext
  show i % baseProducts.length = i % 5 % baseProducts.length
  have : baseProducts.length = 5 := rfl
  rw [this, Nat.mod_mod]

theorem startsWith_seed (k : Int) (h1 : 1 ≤ k) :
    startsWith "Wireless Mouse" (seedEntry k).Name = decide (k % 5 = 1) := by
  have hname : (seedEntry k).Name = (baseAt ((k - 1).toNat % 5)).Name ++ " " ++ itoa k := by
    rw [← baseAt_mod]
    rfl
  rw [startsWith, hname, String.data_append, String.data_append]
  have hlt : (k - 1).toNat % 5 < 5 := Nat.mod_lt _ (by decide)
  have hiff : k % 5 = 1 ↔ (k - 1).toNat % 5 = 0 := by omega
  generalize (k - 1).toNat % 5 = j at hlt hiff
  interval_cases j
  · rw [decide_eq_true (hiff.mpr rfl)]
    rfl
  all_goals
    rw [decide_eq_false (fun h => absurd (hiff.mp h) (by decide))]
    rfl

theorem mouseIDs_nodup : mouseIDs.Nodup := by decide!

theorem mouseIDs_range : ∀ n ∈ mouseIDs, 1 ≤ n ∧ n ≤ 1000 ∧ n % 5 = 1 := by decide!

theorem mouseIDs_length : mouseIDs.length = 200 := by decide!

theorem mouseIDs_head : mouseIDs = 1 :: mouseIDs.tail := by decide!

theorem mem_mouseIDs (n : Nat) : n ∈ mouseIDs ↔ 1 ≤ n ∧ n ≤ 1000 ∧ n % 5 = 1 := by
  constructor
  · exact mouseIDs_range n
  · rintro ⟨h1, h2, h3⟩
    have hsub : mouseIDs.toFinset ⊆ (Finset.range 200).image (fun i => 5 * i + 1) := by
      intro m hm
      obtain ⟨a, b, c⟩ := mouseIDs_range m (List.mem_toFinset.mp hm)
      exact Finset.mem_image.mpr ⟨m / 5, Finset.mem_range.mpr (by omega), by omega⟩
    have hcard : ((Finset.range 200).image (fun i => 5 * i + 1)).card ≤
        mouseIDs.toFinset.card := by
      rw [List.toFinset_card_of_nodup mouseIDs_nodup, mouseIDs_length]
      exact le_trans Finset.card_image_le (by simp)
    have heq := Finset.eq_of_subset_of_card_le hsub hcard
    apply List.mem_toFinset.mp
    rw [heq]
    exact Finset.mem_image.mpr ⟨n / 5, Finset.mem_range.mpr (by omega), by omega⟩

theorem mem_mouseRanking (d : String) :
    d ∈ mouseRanking ↔ ∃ k : Int, 1 ≤ k ∧ k ≤ 1000 ∧ k % 5 = 1 ∧ itoa k = d := by
  unfold mouseRanking
  rw [List.mem_map]
  constructor
  · rintro ⟨n, hn, hd⟩
    obtain ⟨a, b, c⟩ := (mem_mouseIDs n).mp hn
    exact ⟨(n : Int), by omega, by omega, by omega, hd⟩
  · rintro ⟨k, h1, h2, h3, hd⟩
    refine ⟨k.toNat, (mem_mouseIDs _).mpr ⟨by omega, by omega, by omega⟩, ?_⟩
    rw [Int.toNat_of_nonneg (by omega)]
    exact hd

theorem mouseRanking_nodup : mouseRanking.Nodup := by
  unfold mouseRanking
  apply List.Nodup.map _ mouseIDs_nodup
  intro a b hab
  have := itoa_injective hab
  omega

theorem mouseRanking_length : mouseRanking.length = 200 := by
  rw [mouseRanking, List.length_map, mouseIDs_length]

theorem mouseRanking_isRanking :
    IsRanking startsWith "Wireless Mouse" seeded.index mouseRanking := by
  refine ⟨mouseRanking_nodup, ?_⟩
  rw [hitSet_eq startsWith "Wireless Mouse" seeded seedInv_seeded agree_seeded]
  ext d
  rw [List.mem_toFinset, mem_mouseRanking, Finset.mem_image]
  constructor
  · rintro ⟨k, h1, h2, h3, hd⟩
    refine ⟨k, (mem_matching_seed _ _ seeded seedInv_seeded k).mpr
      ⟨(mem_seeded k).mpr ⟨h1, h2⟩, h2, ?_⟩, hd⟩
    rw [startsWith_seed k h1]
    exact decide_eq_true h3
  · rintro ⟨k, hk, hd⟩
    obtain ⟨hmem, h2, hm⟩ := (mem_matching_seed _ _ seeded seedInv_seeded k).mp hk
    have h1 := ((mem_seeded k).mp hmem).1
    rw [startsWith_seed k h1] at hm
    exact ⟨k, h1, h2, of_decide_eq_true hm, hd⟩

theorem mouse_matching_seeded :
    ((matchingItems startsWith "Wireless Mouse" seeded.products).filter
      (fun k => k ≤ 1000)).card = 200 := by
  rw [← Finset.card_image_of_injective _ itoa_injective,
    ← hitSet_eq startsWith "Wireless Mouse" seeded seedInv_seeded agree_seeded,
    ← mouseRanking_isRanking.2, List.toFinset_card_of_nodup mouseRanking_nodup,
    mouseRanking_length]

theorem mouseTail_props : ∀ n ∈ mouseIDs.tail, 2 ≤ n ∧ n ≤ 1000 ∧ n % 5 = 1 := by
  intro n hn
  have hmem : n ∈ mouseIDs := List.mem_of_mem_tail hn
  obtain ⟨a, b, c⟩ := mouseIDs_range n hmem
  have hnd := mouseIDs_nodup
  rw [mouseIDs_head] at hnd
  have hne : n ≠ 1 := fun h => (List.nodup_cons.mp hnd).1 (h ▸ hn)
  exact ⟨by omega, b, c⟩

theorem mouseTail_nodup : mouseIDs.tail.Nodup := by
  have hnd := mouseIDs_nodup
  rw [mouseIDs_head] at hnd
  exact (List.nodup_cons.mp hnd).2

theorem mouseTail_length : mouseIDs.tail.length = 199 := by
  rw [List.length_tail, mouseIDs_length]

theorem lookup_erased (k : Int) (h1 : 2 ≤ k) (h2 : k ≤ 1000) :
    (seeded.products.erase 1).lookup k = some (seedEntry k) := by
  rw [Finmap.lookup_erase_ne (by omega), lookup_seeded, if_pos ⟨by omega, h2⟩]

theorem resolveHit_itoa_seed (products : Catalog) (k : Int) (h1 : 1 ≤ k) (h2 : k ≤ 1000) :
    resolveHit products (itoa k) = products.lookup k := by
  rw [resolveHit, atoi_itoa_seed k h1 h2]
  rfl

theorem mouse_matching_erased :
    50 < (matchingItems startsWith "Wireless Mouse" (seeded.products.erase 1)).card := by
  have hsub : (mouseIDs.tail.map (fun (n : Nat) => (n : Int))).toFinset ⊆
      matchingItems startsWith "Wireless Mouse" (seeded.products.erase 1) := by
    intro k hk
    obtain ⟨n, hn, hnk⟩ := List.mem_map.mp (List.mem_toFinset.mp hk)
    obtain ⟨a, b, c⟩ := mouseTail_props n hn
    have hl := lookup_erased k (by omega) (by omega)
    rw [matchingItems, Finset.mem_filter, Finmap.mem_keys, hl]
    refine ⟨Finmap.mem_of_lookup_eq_some hl, ?_⟩
    show startsWith "Wireless Mouse" (seedEntry k).Name = true
    rw [startsWith_seed k (by omega)]
    exact decide_eq_true (by omega)
  have hcard : (mouseIDs.tail.map (fun (n : Nat) => (n : Int))).toFinset.card = 199 := by
    rw [List.toFinset_card_of_nodup, List.length_map, mouseTail_length]
    exact List.Nodup.map (fun a b hab => by omega) mouseTail_nodup
  have := Finset.card_le_card hsub
  omega

theorem mouseRanking_take :
    mouseRanking.take 50 =
      itoa 1 :: (mouseIDs.tail.take 49).map (fun (n : Nat) => itoa (n : Int)) := by
  unfold mouseRanking
  rw [← List.map_take]
  conv_lhs => rw [mouseIDs_head]
  rfl

theorem erased_resolved :
    ((mouseRanking.take 50).filterMap (resolveHit (seeded.products.erase 1))).length = 49 := by
  rw [mouseRanking_take, List.filterMap_cons]
  have h0 : resolveHit (seeded.products.erase 1) (itoa 1) = none := by
    rw [resolveHit_itoa_seed _ 1 (by decide) (by decide)]
    exact Finmap.lookup_erase 1 _
  rw [h0, length_filterMap_of_isSome]
  · rw [List.length_map, List.length_take, mouseTail_length]
    rfl
  · intro d hd
    obtain ⟨n, hn, hnd⟩ := List.mem_map.mp hd
    obtain ⟨a, b, c⟩ := mouseTail_props n (List.mem_of_mem_take hn)
    rw [← hnd, resolveHit_itoa_seed _ _ (by omega) (by omega),
      lookup_erased _ (by omega) (by omega)]
    rfl

/-- Claim C6 fails as stated.  After a Delete of item 1 whose index deletion failed, the
query `Wireless Mouse` still has the 200 documents of the template as hits and matches 199
items of the catalog, yet the search returns 49 items: the index is asked for 50 hits, the
first of which is the stale document `1`, and that hit is skipped. -/
theorem c6_short_result :
    IsRanking startsWith "Wireless Mouse"
      (run [Request.delete "1" (some "index unavailable")] seeded).index mouseRanking ∧
    50 < (matchingItems startsWith "Wireless Mouse"
      (run [Request.delete "1" (some "index unavailable")] seeded).products).card ∧
    ∃ items : List Product,
      searchHandler (bleveSearch mouseRanking)
        (run [Request.delete "1" (some "index unavailable")] seeded).products =
          ⟨200, .products items⟩ ∧
      items.length = 49 := by
  rw [run_delete_one]
  refine ⟨mouseRanking_isRanking, mouse_matching_erased, _,
    searchHandler_bleve mouseRanking _, ?_⟩
  show (((mouseRanking.take 50).filterMap
    (resolveHit (seeded.products.erase 1))).take 50).length = 49
  rw [List.length_take, erased_resolved]
  rfl

theorem matching_seed_add (matchText : String → String → Bool) (q : String) (s : State)
    (hs : SeedInv s) (body : Product) :
    (matchingItems matchText q (addProductHandler (.ok body) none s).state.products).filter
        (fun k => k ≤ 1000) =
      (matchingItems matchText q s.products).filter (fun k => k ≤ 1000) := by
  ext k
  rw [mem_matching_seed matchText q _ (seedInv_add s (.ok body) none hs),
    mem_matching_seed matchText q s hs]
  have hnext := hs.next_ge
  constructor
  · rintro ⟨hk, hle, hm⟩
    rcases Finmap.mem_insert.mp hk with h | h
    · have : k = s.nextID := h
      omega
    · exact ⟨h, hle, hm⟩
  · rintro ⟨hk, hle, hm⟩
    exact ⟨Finmap.mem_insert.mpr (Or.inr hk), hle, hm⟩

theorem run_add_one (body : Product) (s : State) :
    run [Request.add (.ok body) none] s = (addProductHandler (.ok body) none s).state := rfl

theorem mouseRanking_after_add (body : Product) :
    IsRanking startsWith "Wireless Mouse"
      (run [Request.add (.ok body) none] seeded).index mouseRanking := by
  refine ⟨mouseRanking_nodup, ?_⟩
  have hok : noDeleteFailure [Request.add (.ok body) none] seeded = true := rfl
  rw [hitSet_eq startsWith "Wireless Mouse" _ (seedInv_run _ seeded seedInv_seeded)
    (agree_run _ seeded inv_seeded agree_seeded hok), run_add_one,
    matching_seed_add _ _ seeded seedInv_seeded,
    ← hitSet_eq startsWith "Wireless Mouse" seeded seedInv_seeded agree_seeded]
  exact mouseRanking_isRanking.2

theorem mouse_matching_after_add (body : Product) :
    ((matchingItems startsWith "Wireless Mouse"
      (run [Request.add (.ok body) none] seeded).products).filter
        (fun k => k ≤ 1000)).card = 200 := by
  rw [run_add_one, matching_seed_add _ _ seeded seedInv_seeded, mouse_matching_seeded]

/-- Witness of `c6_search_cap`: after the Create of an item named `Wireless Mouse Pro`, the
query `Wireless Mouse`, matched by the names that start with it, has the 200 bulk-loaded
documents of the template as hits, matches 200 bulk-loaded items of the catalog, and is
answered with 50 items. -/
theorem c6_search_cap_witness :
    noDeleteFailure [Request.add (.ok ⟨0, "Wireless Mouse Pro", "Electronics"⟩) none]
      seeded = true ∧
    IsRanking startsWith "Wireless Mouse"
      (run [Request.add (.ok ⟨0, "Wireless Mouse Pro", "Electronics"⟩) none] seeded).index
      mouseRanking ∧
    50 < ((matchingItems startsWith "Wireless Mouse"
      (run [Request.add (.ok ⟨0, "Wireless Mouse Pro", "Electronics"⟩) none]
        seeded).products).filter (fun k => k ≤ 1000)).card ∧
    ∃ items : List Product,
      searchHandler (bleveSearch mouseRanking)
        (run [Request.add (.ok ⟨0, "Wireless Mouse Pro", "Electronics"⟩) none]
          seeded).products = ⟨200, .products items⟩ ∧
      items.length = 50 ∧
      (mouseRanking.take 50).map (resolveHit
        (run [Request.add (.ok ⟨0, "Wireless Mouse Pro", "Electronics"⟩) none]
          seeded).products) = items.map some ∧
      ∀ item ∈ items, startsWith "Wireless Mouse" item.Name = true ∧
        (run [Request.add (.ok ⟨0, "Wireless Mouse Pro", "Electronics"⟩) none]
          seeded).products.lookup item.ID = some item :=
  have h₁ : noDeleteFailure
      [Request.add (.ok ⟨0, "Wireless Mouse Pro", "Electronics"⟩) none] seeded = true := rfl
  have h₂ := mouseRanking_after_add ⟨0, "Wireless Mouse Pro", "Electronics"⟩
  have h₃ : 50 < ((matchingItems startsWith "Wireless Mouse"
      (run [Request.add (.ok ⟨0, "Wireless Mouse Pro", "Electronics"⟩) none]
        seeded).products).filter (fun k => k ≤ 1000)).card := by
    rw [mouse_matching_after_add]
    decide
  ⟨h₁, h₂, h₃, c6_search_cap _ startsWith "Wireless Mouse" mouseRanking h₁ h₂ h₃⟩

end GoFileSearch
